import Mathlib

/-!
# Verification of the ASCIIliens simulation engine

A shallow embedding of the game core (`src/game/mod.rs`, `alien.rs`, `blast.rs`,
`player.rs`, `util/constants.rs`) of the `asciiliens` repository, together with
theorems settling the specification claims about it.

Machine integers (`u16`, `u8`, `u64`) are modelled as `Nat`: every arithmetic
operation the code performs on them is either guarded (`move_left` checks
`x > 0`), saturating (`saturating_sub`, which is `Nat` subtraction), or applied
to values that stay far below the wrap-around bound, so plain `Nat` arithmetic
is exact.  The `i32` score uses `Int` with explicit saturation at the `i32`
bounds, mirroring `saturating_add`/`saturating_sub`.

The two places the code consults its RNG are modelled as explicit parameters,
matching the spec's "pluggable randomness source": `Game.new` takes a stream
`ds : Nat → Nat` choosing each alien's design index (`rng.gen_range(0..4)` is
`ds k % 4`), and `Game.update` takes `r : Nat` for the single
`rng.gen_range(0..movable.len())` call of the movement phase (`r % len`).
-/

namespace Asciiliens

/-! ## Constants (`src/util/constants.rs`) -/

def GAME_WIDTH : Nat := 80
def GAME_HEIGHT : Nat := 24
def ALIEN_MOVE_DOWN_FREQ : Nat := 10
def PLAYER_WIDTH : Nat := 6
def ALIEN_WIDTH : Nat := 2
def ALIEN_HEIGHT : Nat := 2
def PLAYER_Y_OFFSET : Nat := 2
def INITIAL_SCORE : Int := 100

/-! ## Saturating `i32` arithmetic -/

def i32Min : Int := -(2 ^ 31)
def i32Max : Int := 2 ^ 31 - 1

/-- `i32::saturating_add`. -/
def satAdd (a b : Int) : Int := max i32Min (min i32Max (a + b))

/-- `i32::saturating_sub`. -/
def satSub (a b : Int) : Int := max i32Min (min i32Max (a - b))

/-! ## Blast (`src/game/blast.rs`) -/

structure Blast where
  x : Nat
  y : Nat
deriving DecidableEq, Repr, Inhabited

/-- `Blast::move_up`: decrement `y` when `y > 0` (the returned `bool` is
ignored by the only caller, `Game::update_blasts`, so it is not modelled). -/
def Blast.move_up (b : Blast) : Blast :=
  if 0 < b.y then { b with y := b.y - 1 } else b

/-! ## Alien (`src/game/alien.rs`) -/

/-- An alien.  The 2×2 character `design` is render-only; it is modelled as
the index chosen into `ALIEN_DESIGNS` by `rng.gen_range(0..ALIEN_DESIGNS.len())`
in `Alien::new`. -/
structure Alien where
  x : Nat
  y : Nat
  alive : Bool
  design : Nat
  explosion_frame : Nat
deriving DecidableEq, Repr, Inhabited

/-- `Alien::new` with the RNG draw for the design made explicit. -/
def Alien.new (x y : Nat) (d : Nat) : Alien :=
  { x := x, y := y, alive := true, design := d % 4, explosion_frame := 0 }

/-- `Alien::move_left`: one step left, stopped at the left screen edge. -/
def Alien.move_left (a : Alien) : Alien :=
  if 0 < a.x then { a with x := a.x - 1 } else a

/-- `Alien::move_right`: one step right, stopped at `GAME_WIDTH - ALIEN_WIDTH`. -/
def Alien.move_right (a : Alien) : Alien :=
  if a.x < GAME_WIDTH - ALIEN_WIDTH then { a with x := a.x + 1 } else a

/-- `Alien::move_down`: unguarded descent. -/
def Alien.move_down (a : Alien) : Alien :=
  { a with y := a.y + 1 }

/-- `Alien::collides_with_blast`. -/
def Alien.collides_with_blast (a : Alien) (b : Blast) : Bool :=
  a.alive
    && a.explosion_frame == 0
    && a.x ≤ b.x
    && b.x < a.x + ALIEN_WIDTH
    && a.y ≤ b.y
    && b.y < a.y + ALIEN_HEIGHT

/-! ## Player (`src/game/player.rs`) -/

structure Player where
  x : Nat
deriving DecidableEq, Repr, Inhabited

def Player.new : Player := { x := GAME_WIDTH / 2 }

/-- `Player::y_pos`: the fixed row `GAME_HEIGHT - PLAYER_Y_OFFSET`. -/
def Player.y_pos (_ : Player) : Nat := GAME_HEIGHT - PLAYER_Y_OFFSET

/-- `Player::move_left`: guarded by `x > PLAYER_WIDTH / 2`. -/
def Player.move_left (p : Player) : Player :=
  if PLAYER_WIDTH / 2 < p.x then { p with x := p.x - 1 } else p

/-- `Player::move_right`: guarded by `x < GAME_WIDTH - PLAYER_WIDTH / 2 - 1`. -/
def Player.move_right (p : Player) : Player :=
  if p.x < GAME_WIDTH - PLAYER_WIDTH / 2 - 1 then { p with x := p.x + 1 } else p

/-- `Player::collides_with_alien`: pure AABB test; `saturating_sub` is `Nat`
subtraction. -/
def Player.collides_with_alien (p : Player) (a : Alien) : Bool :=
  let player_left := p.x - PLAYER_WIDTH / 2
  let player_right := p.x + PLAYER_WIDTH / 2 - 1
  let alien_left := a.x
  let alien_right := a.x + ALIEN_WIDTH - 1
  let player_top := p.y_pos
  let player_bottom := p.y_pos
  let alien_top := a.y
  let alien_bottom := a.y + ALIEN_HEIGHT - 1
  (player_left ≤ alien_right && alien_left ≤ player_right)
    && (player_top ≤ alien_bottom && alien_top ≤ player_bottom)

/-! ## Game state and events (`src/game/mod.rs`) -/

inductive GameState where
  | Playing
  | Win
  | GameOver
  | Quit
deriving DecidableEq, Repr, Inhabited

inductive GameEvent where
  | MoveLeft
  | MoveRight
  | Fire
  | Quit
  | AdvanceFrame
deriving DecidableEq, Repr, Inhabited

structure Game where
  player : Player
  blasts : List Blast
  aliens : List Alien
  frame_counter : Nat
  game_state : GameState
  score : Int
deriving DecidableEq, Repr, Inhabited

/-- `Game::initialize_aliens_for_game`: a 10×3 grid in row-major push order,
alien `(row, col)` at `(col*6 + 10, row*3 + 3)`; `ds` supplies the RNG draws
for the designs in push order. -/
def initialize_aliens_for_game (ds : Nat → Nat) : List Alien :=
  (List.range 3).flatMap fun row =>
    (List.range 10).map fun col =>
      Alien.new (col * 6 + 10) (row * 3 + 3) (ds (row * 10 + col))

/-- `Game::new`. -/
def Game.new (ds : Nat → Nat) : Game :=
  { player := Player.new
    blasts := []
    aliens := initialize_aliens_for_game ds
    frame_counter := 0
    game_state := GameState.Playing
    score := INITIAL_SCORE }

/-! ## The per-step phases of `Game::update` -/

/-- `Game::fire_blast`: push a blast at `(player.x, player.y_pos() - 1)`. -/
def Game.fire_blast (g : Game) : Game :=
  { g with blasts := g.blasts ++ [{ x := g.player.x, y := g.player.y_pos - 1 }] }

/-- `Game::update_blasts`: move every blast up, then retain those with `y > 0`. -/
def Game.update_blasts (g : Game) : Game :=
  { g with blasts := (g.blasts.map Blast.move_up).filter fun b => 0 < b.y }

/-- The inner `for alien in aliens.iter_mut() { if collides { frame = 1; break } }`
of `Game::handle_collisions`: set the first colliding alien's
`explosion_frame` to 1, report whether a hit happened. -/
def markFirstHit (b : Blast) : List Alien → List Alien × Bool
  | [] => ([], false)
  | a :: rest =>
    if a.collides_with_blast b then
      ({ a with explosion_frame := 1 } :: rest, true)
    else
      let p := markFirstHit b rest
      (a :: p.1, p.2)

/-- The outer `blasts.iter_mut().for_each(...)` of `Game::handle_collisions`:
process blasts in order against the evolving alien list; a hit blast has its
`y` set to 0 (marking it for removal). -/
def processBlasts : List Alien → List Blast → List Alien × List Blast
  | aliens, [] => (aliens, [])
  | aliens, b :: bs =>
    if 0 < b.y then
      let m := markFirstHit b aliens
      let b' := if m.2 then { b with y := 0 } else b
      let rest := processBlasts m.1 bs
      (rest.1, b' :: rest.2)
    else
      let rest := processBlasts aliens bs
      (rest.1, b :: rest.2)

/-- `Game::handle_collisions`: process every blast, then retain blasts with
`y > 0`. -/
def Game.handle_collisions (g : Game) : Game :=
  let p := processBlasts g.aliens g.blasts
  { g with aliens := p.1, blasts := p.2.filter fun b => 0 < b.y }

/-- The loop body of `Game::update_explosions`, threading the saturating score:
an alien with `0 < explosion_frame < 5` is incremented; on reaching 5 it is
marked dead and 250 points are added. -/
def updateExplosionsList : List Alien → Int → List Alien × Int
  | [], s => ([], s)
  | a :: rest, s =>
    if 0 < a.explosion_frame ∧ a.explosion_frame < 5 then
      let a' := { a with explosion_frame := a.explosion_frame + 1 }
      if a'.explosion_frame = 5 then
        let p := updateExplosionsList rest (satAdd s 250)
        ({ a' with alive := false } :: p.1, p.2)
      else
        let p := updateExplosionsList rest s
        (a' :: p.1, p.2)
    else
      let p := updateExplosionsList rest s
      (a :: p.1, p.2)

/-- `Game::update_explosions`. -/
def Game.update_explosions (g : Game) : Game :=
  let p := updateExplosionsList g.aliens g.score
  { g with aliens := p.1, score := p.2 }

/-- The branch body choosing the horizontal move of the randomly selected
alien in `Game::update_alien_movement` (`px` is `player_effective_x`). -/
def moveTowardPlayer (px : Nat) (a : Alien) : Alien :=
  if a.x < px - PLAYER_WIDTH / 2 ∧ a.x < GAME_WIDTH - ALIEN_WIDTH then
    a.move_right
  else if px + PLAYER_WIDTH / 2 - 1 < a.x ∧ 0 < a.x then
    a.move_left
  else
    a

/-- The movable-alien collection of `Game::update_alien_movement`:
indexed references to the aliens with `alive && explosion_frame == 0`. -/
def movableAliens (aliens : List Alien) : List (Nat × Alien) :=
  aliens.enum.filter fun q => q.2.alive && q.2.explosion_frame == 0

/-- The horizontal half of `Game::update_alien_movement`: when some alien is
movable, the one at index `r % len` of the movable list moves toward the
player in place. -/
def updateAliensHorizontal (px r : Nat) (aliens : List Alien) : List Alien :=
  let movable := movableAliens aliens
  if movable.isEmpty then aliens
  else
    let q := movable.getD (r % movable.length) (0, default)
    aliens.set q.1 (moveTowardPlayer px q.2)

/-- `Game::update_alien_movement`: one random movable alien steps toward the
player, then every movable alien descends when the frame counter hits the
descent period. -/
def Game.update_alien_movement (g : Game) (r : Nat) : Game :=
  let aliens1 := updateAliensHorizontal g.player.x r g.aliens
  let aliens2 :=
    if g.frame_counter % ALIEN_MOVE_DOWN_FREQ = 0 then
      aliens1.map fun a =>
        if a.alive && a.explosion_frame == 0 then a.move_down else a
    else aliens1
  { g with aliens := aliens2 }

/-- The retention predicate of the purge in `Game::check_game_over_conditions`:
an alien is kept while `alive() || explosion_frame() < 5`. -/
def keepAlien (a : Alien) : Bool := a.alive || a.explosion_frame < 5

/-- The invasion test of `Game::check_game_over_conditions`. -/
def invades (p : Player) (a : Alien) : Bool :=
  a.alive && a.explosion_frame == 0 && p.y_pos ≤ a.y + ALIEN_HEIGHT - 1

/-- The direct-collision test of `Game::check_game_over_conditions`. -/
def hitsPlayer (p : Player) (a : Alien) : Bool :=
  a.alive && a.explosion_frame == 0 && p.collides_with_alien a

/-- `Game::check_game_over_conditions`: purge fully exploded aliens, then test
Win, then invasion, then direct collision, each short-circuiting the rest. -/
def Game.check_game_over_conditions (g : Game) : Game :=
  let aliens' := g.aliens.filter keepAlien
  if aliens'.all fun a => !a.alive then
    { g with aliens := aliens', game_state := GameState.Win }
  else if aliens'.any (invades g.player) then
    { g with aliens := aliens', game_state := GameState.GameOver }
  else if aliens'.any (hitsPlayer g.player) then
    { g with aliens := aliens', game_state := GameState.GameOver }
  else
    { g with aliens := aliens' }

/-- The command-processing phase of `Game::update` (the `match event`). -/
def Game.applyEvent (g : Game) : GameEvent → Game
  | GameEvent.MoveLeft =>
    { g with player := g.player.move_left, score := satSub g.score 1 }
  | GameEvent.MoveRight =>
    { g with player := g.player.move_right, score := satSub g.score 1 }
  | GameEvent.Fire =>
    let gf := g.fire_blast
    { gf with score := satSub gf.score 1 }
  | GameEvent.Quit =>
    { g with game_state := GameState.Quit }
  | GameEvent.AdvanceFrame => g

/-- `Game::update`: a no-op unless `Playing`; otherwise increment the frame
counter, process the command, and run the five phases in order. -/
def Game.update (g : Game) (event : GameEvent) (r : Nat) : Game :=
  if g.game_state ≠ GameState.Playing then g
  else
    let g1 := { g with frame_counter := g.frame_counter + 1 }
    let g2 := g1.applyEvent event
    ((((g2.update_blasts).handle_collisions).update_explosions).update_alien_movement
        r).check_game_over_conditions

/-- A run of the engine: fold `update` over a list of (command, RNG draw)
pairs. -/
def Game.run (g : Game) : List (GameEvent × Nat) → Game
  | [] => g
  | s :: rest => (g.update s.1 s.2).run rest

/-! ## Helper lemmas: the phases do not touch unrelated fields -/

@[simp] lemma fire_blast_player (g : Game) : g.fire_blast.player = g.player := rfl
@[simp] lemma fire_blast_game_state (g : Game) : g.fire_blast.game_state = g.game_state := rfl
@[simp] lemma fire_blast_score (g : Game) : g.fire_blast.score = g.score := rfl
@[simp] lemma fire_blast_aliens (g : Game) : g.fire_blast.aliens = g.aliens := rfl

@[simp] lemma update_blasts_game_state (g : Game) :
    g.update_blasts.game_state = g.game_state := rfl
@[simp] lemma update_blasts_aliens (g : Game) : g.update_blasts.aliens = g.aliens := rfl
@[simp] lemma update_blasts_score (g : Game) : g.update_blasts.score = g.score := rfl
@[simp] lemma update_blasts_player (g : Game) : g.update_blasts.player = g.player := rfl
@[simp] lemma update_blasts_frame (g : Game) :
    g.update_blasts.frame_counter = g.frame_counter := rfl

@[simp] lemma handle_collisions_game_state (g : Game) :
    g.handle_collisions.game_state = g.game_state := rfl
@[simp] lemma handle_collisions_score (g : Game) :
    g.handle_collisions.score = g.score := rfl
@[simp] lemma handle_collisions_player (g : Game) :
    g.handle_collisions.player = g.player := rfl
@[simp] lemma handle_collisions_frame (g : Game) :
    g.handle_collisions.frame_counter = g.frame_counter := rfl

@[simp] lemma update_explosions_game_state (g : Game) :
    g.update_explosions.game_state = g.game_state := rfl
@[simp] lemma update_explosions_blasts (g : Game) :
    g.update_explosions.blasts = g.blasts := rfl
@[simp] lemma update_explosions_player (g : Game) :
    g.update_explosions.player = g.player := rfl
@[simp] lemma update_explosions_frame (g : Game) :
    g.update_explosions.frame_counter = g.frame_counter := rfl

@[simp] lemma update_alien_movement_game_state (g : Game) (r : Nat) :
    (g.update_alien_movement r).game_state = g.game_state := rfl
@[simp] lemma update_alien_movement_blasts (g : Game) (r : Nat) :
    (g.update_alien_movement r).blasts = g.blasts := rfl
@[simp] lemma update_alien_movement_score (g : Game) (r : Nat) :
    (g.update_alien_movement r).score = g.score := rfl
@[simp] lemma update_alien_movement_player (g : Game) (r : Nat) :
    (g.update_alien_movement r).player = g.player := rfl
@[simp] lemma update_alien_movement_frame (g : Game) (r : Nat) :
    (g.update_alien_movement r).frame_counter = g.frame_counter := rfl

@[simp] lemma check_game_over_blasts (g : Game) :
    g.check_game_over_conditions.blasts = g.blasts := by
  unfold Game.check_game_over_conditions
  dsimp only
  split_ifs <;> rfl

@[simp] lemma check_game_over_score (g : Game) :
    g.check_game_over_conditions.score = g.score := by
  unfold Game.check_game_over_conditions
  dsimp only
  split_ifs <;> rfl

@[simp] lemma check_game_over_player (g : Game) :
    g.check_game_over_conditions.player = g.player := by
  unfold Game.check_game_over_conditions
  dsimp only
  split_ifs <;> rfl

@[simp] lemma check_game_over_aliens (g : Game) :
    g.check_game_over_conditions.aliens = g.aliens.filter keepAlien := by
  unfold Game.check_game_over_conditions
  dsimp only
  split_ifs <;> rfl

/-- After `check_game_over_conditions` the lifecycle state is the input state,
`Win`, or `GameOver`. -/
lemma check_game_over_state_cases (g : Game) :
    g.check_game_over_conditions.game_state = g.game_state ∨
      g.check_game_over_conditions.game_state = GameState.Win ∨
      g.check_game_over_conditions.game_state = GameState.GameOver := by
  unfold Game.check_game_over_conditions
  dsimp only
  split_ifs
  · exact Or.inr (Or.inl rfl)
  · exact Or.inr (Or.inr rfl)
  · exact Or.inr (Or.inr rfl)
  · exact Or.inl rfl

/-- Unfolding of `Game.update` in the `Playing` state. -/
lemma update_playing (g : Game) (ev : GameEvent) (r : Nat)
    (h : g.game_state = GameState.Playing) :
    g.update ev r =
      (((((({ g with frame_counter := g.frame_counter + 1 } : Game).applyEvent
          ev).update_blasts).handle_collisions).update_explosions).update_alien_movement
            r).check_game_over_conditions := by
  unfold Game.update
  rw [if_neg (by simp [h])]

/-- Unfolded membership in the initial alien grid. -/
lemma mem_initialize_iff (ds : Nat → Nat) (a : Alien) :
    a ∈ initialize_aliens_for_game ds ↔
      ∃ row, row < 3 ∧ ∃ col, col < 10 ∧
        a = Alien.new (col * 6 + 10) (row * 3 + 3) (ds (row * 10 + col)) := by
  simp only [initialize_aliens_for_game, List.mem_flatMap, List.mem_map, List.mem_range]
  constructor
  · rintro ⟨row, hrow, col, hcol, rfl⟩
    exact ⟨row, hrow, col, hcol, rfl⟩
  · rintro ⟨row, hrow, col, hcol, rfl⟩
    exact ⟨row, hrow, col, hcol, rfl⟩

/-- Propositional unfolding of `Alien.collides_with_blast`. -/
lemma collides_with_blast_iff (a : Alien) (b : Blast) :
    a.collides_with_blast b = true ↔
      a.alive = true ∧ a.explosion_frame = 0 ∧
        a.x ≤ b.x ∧ b.x < a.x + 2 ∧ a.y ≤ b.y ∧ b.y < a.y + 2 := by
  simp [Alien.collides_with_blast, ALIEN_WIDTH, ALIEN_HEIGHT, and_assoc]

/-- When no alien collides with the blast, `markFirstHit` changes nothing. -/
lemma markFirstHit_eq_of_no_hit (b : Blast) (aliens : List Alien)
    (h : ∀ a ∈ aliens, a.collides_with_blast b = false) :
    markFirstHit b aliens = (aliens, false) := by
  induction aliens with
  | nil => rfl
  | cons a rest ih =>
    unfold markFirstHit
    rw [h a (List.mem_cons_self a rest)]
    simp only [Bool.false_eq_true, if_false]
    rw [ih fun x hx => h x (List.mem_cons_of_mem a hx)]

/-- A single on-screen blast that overlaps no alien survives
`handle_collisions` unchanged and mutates no alien. -/
lemma handle_collisions_single_miss (g : Game) (b : Blast) (hb : 0 < b.y)
    (hbs : g.blasts = [b]) (h : ∀ a ∈ g.aliens, a.collides_with_blast b = false) :
    g.handle_collisions = { g with blasts := [b] } := by
  unfold Game.handle_collisions
  rw [hbs]
  unfold processBlasts
  rw [markFirstHit_eq_of_no_hit b g.aliens h]
  simp [hb, processBlasts]

/-- Aliens with `explosion_frame = 0` are untouched by the explosion phase,
and so is the score. -/
lemma updateExplosionsList_of_frame_zero (aliens : List Alien) (s : Int)
    (h : ∀ a ∈ aliens, a.explosion_frame = 0) :
    updateExplosionsList aliens s = (aliens, s) := by
  induction aliens with
  | nil => rfl
  | cons a rest ih =>
    have ha := h a (List.mem_cons_self a rest)
    unfold updateExplosionsList
    rw [if_neg (by omega)]
    rw [ih fun x hx => h x (List.mem_cons_of_mem a hx)]

/-- `Game.update_explosions` is the identity on a game whose aliens are all
intact. -/
lemma update_explosions_intact (g : Game)
    (h : ∀ a ∈ g.aliens, a.explosion_frame = 0) : g.update_explosions = g := by
  unfold Game.update_explosions
  rw [updateExplosionsList_of_frame_zero g.aliens g.score h]

/-! ## Per-phase relations on aliens -/

/-- Effect of the collision phase on one alien: unchanged, or (being intact
and alive) its explosion starts. -/
def collRel (a a' : Alien) : Prop :=
  a' = a ∨
    (a.alive = true ∧ a.explosion_frame = 0 ∧ a'.explosion_frame = 1 ∧
      a'.alive = a.alive ∧ a'.x = a.x ∧ a'.y = a.y ∧ a'.design = a.design)

/-- Effect of the explosion phase on one alien: an animating alien's frame
rises by exactly one, dying when it reaches 5; others are unchanged. -/
def expRel (a a' : Alien) : Prop :=
  (1 ≤ a.explosion_frame ∧ a.explosion_frame ≤ 4 ∧
      a'.explosion_frame = a.explosion_frame + 1 ∧
      a'.alive = (if a.explosion_frame = 4 then false else a.alive) ∧
      a'.x = a.x ∧ a'.y = a.y ∧ a'.design = a.design) ∨
    ((a.explosion_frame = 0 ∨ 5 ≤ a.explosion_frame) ∧ a' = a)

/-- Effect of the movement phase on one alien: position may change, liveness
and explosion frame do not. -/
def moveRel (a a' : Alien) : Prop :=
  a'.alive = a.alive ∧ a'.explosion_frame = a.explosion_frame

/-- Combined effect of one `Playing` step on one alien (before the purge). -/
def stepRel (a a' : Alien) : Prop :=
  ∃ b c, collRel a b ∧ expRel b c ∧ moveRel c a'

/-- Effect of the collision phase on one blast: unchanged, or marked for
removal by zeroing `y`. -/
def blastRel (b b' : Blast) : Prop := b' = b ∨ b' = { b with y := 0 }

lemma collRel_refl (a : Alien) : collRel a a := Or.inl rfl

lemma collRel_trans {a b c : Alien} (h₁ : collRel a b) (h₂ : collRel b c) :
    collRel a c := by
  rcases h₁ with rfl | ⟨ha, hf, h1f, h1a, h1x, h1y, h1d⟩
  · exact h₂
  · rcases h₂ with rfl | ⟨-, hf2, -⟩
    · exact Or.inr ⟨ha, hf, h1f, h1a, h1x, h1y, h1d⟩
    · omega

lemma moveRel_refl (a : Alien) : moveRel a a := ⟨rfl, rfl⟩

lemma moveRel_trans {a b c : Alien} (h₁ : moveRel a b) (h₂ : moveRel b c) :
    moveRel a c := ⟨h₂.1.trans h₁.1, h₂.2.trans h₁.2⟩

/-- Composition helper for `List.Forall₂`. -/
lemma forall₂_comp {α : Type} (R S T : α → α → Prop)
    (hcomp : ∀ a b c, R a b → S b c → T a c) :
    ∀ {l₁ l₂ l₃ : List α}, List.Forall₂ R l₁ l₂ → List.Forall₂ S l₂ l₃ →
      List.Forall₂ T l₁ l₃
  | _, _, _, List.Forall₂.nil, List.Forall₂.nil => List.Forall₂.nil
  | _, _, _, List.Forall₂.cons h₁ t₁, List.Forall₂.cons h₂ t₂ =>
    List.Forall₂.cons (hcomp _ _ _ h₁ h₂) (forall₂_comp R S T hcomp t₁ t₂)

/-- Every element on the right of a `Forall₂` is related to some element on
the left. -/
lemma forall₂_exists_left {α β : Type} {R : α → β → Prop} :
    ∀ {l₁ : List α} {l₂ : List β}, List.Forall₂ R l₁ l₂ →
      ∀ b ∈ l₂, ∃ a ∈ l₁, R a b
  | _, _, List.Forall₂.nil, b, hb => absurd hb (List.not_mem_nil b)
  | _, _, List.Forall₂.cons h t, b, hb => by
    rcases List.mem_cons.1 hb with rfl | hb
    · exact ⟨_, List.mem_cons_self _ _, h⟩
    · rcases forall₂_exists_left t b hb with ⟨a, ha, hr⟩
      exact ⟨a, List.mem_cons_of_mem _ ha, hr⟩

/-! ## Collision phase lemmas -/

/-- `markFirstHit` relates every alien to its image by `collRel`. -/
lemma markFirstHit_collRel (b : Blast) :
    ∀ aliens : List Alien, List.Forall₂ collRel aliens (markFirstHit b aliens).1
  | [] => List.Forall₂.nil
  | a :: rest => by
    unfold markFirstHit
    by_cases h : a.collides_with_blast b = true
    · rw [if_pos h]
      rcases (collides_with_blast_iff a b).1 h with ⟨ha, hf, -⟩
      exact List.Forall₂.cons (Or.inr ⟨ha, hf, rfl, rfl, rfl, rfl, rfl⟩)
        (List.forall₂_same.2 fun x _ => collRel_refl x)
    · rw [if_neg h]
      exact List.Forall₂.cons (collRel_refl a) (markFirstHit_collRel b rest)

/-- `processBlasts` relates every alien to its image by `collRel`. -/
lemma processBlasts_collRel :
    ∀ (bs : List Blast) (aliens : List Alien),
      List.Forall₂ collRel aliens (processBlasts aliens bs).1
  | [], aliens => List.forall₂_same.2 fun x _ => collRel_refl x
  | b :: bs, aliens => by
    unfold processBlasts
    by_cases hy : 0 < b.y
    · rw [if_pos hy]
      exact forall₂_comp collRel collRel collRel (fun _ _ _ h₁ h₂ => collRel_trans h₁ h₂)
        (markFirstHit_collRel b aliens) (processBlasts_collRel bs (markFirstHit b aliens).1)
    · rw [if_neg hy]
      exact processBlasts_collRel bs aliens

/-- `processBlasts` relates every blast to its image by `blastRel`. -/
lemma processBlasts_blastRel :
    ∀ (bs : List Blast) (aliens : List Alien),
      List.Forall₂ blastRel bs (processBlasts aliens bs).2
  | [], _ => List.Forall₂.nil
  | b :: bs, aliens => by
    unfold processBlasts
    by_cases hy : 0 < b.y
    · rw [if_pos hy]
      refine List.Forall₂.cons ?_ (processBlasts_blastRel bs (markFirstHit b aliens).1)
      by_cases hm : (markFirstHit b aliens).2 = true
      · rw [hm]; exact Or.inr rfl
      · rw [Bool.not_eq_true] at hm; rw [hm]; exact Or.inl rfl
    · rw [if_neg hy]
      exact List.Forall₂.cons (Or.inl rfl) (processBlasts_blastRel bs aliens)

/-- `markFirstHit` on the first colliding alien: exactly that alien's
explosion starts, everything else is untouched, and the hit is reported. -/
lemma markFirstHit_eq_of_first_hit (b : Blast) :
    ∀ (aliens : List Alien) (i : Nat) (hi : i < aliens.length),
      (aliens.get ⟨i, hi⟩).collides_with_blast b = true →
      (∀ j (hj : j < i), (aliens.get ⟨j, Nat.lt_trans hj hi⟩).collides_with_blast b = false) →
      markFirstHit b aliens =
        (aliens.set i { aliens.get ⟨i, hi⟩ with explosion_frame := 1 }, true)
  | [], i, hi, _, _ => absurd hi (by simp)
  | a :: rest, 0, _, hhit, _ => by
    have hhit' : a.collides_with_blast b = true := hhit
    unfold markFirstHit
    rw [if_pos hhit']
    rfl
  | a :: rest, k + 1, hi, hhit, hbef => by
    have ha : a.collides_with_blast b = false := hbef 0 (Nat.succ_pos k)
    unfold markFirstHit
    rw [ha]
    simp only [Bool.false_eq_true, if_false]
    have htail := markFirstHit_eq_of_first_hit b rest k (Nat.lt_of_succ_lt_succ hi)
      hhit (fun j hj => hbef (j + 1) (Nat.succ_lt_succ hj))
    rw [htail]
    rfl

/-! ## Explosion phase lemmas -/

/-- Sequential saturating addition of `k` destruction bonuses of 250. -/
def addBonuses (s : Int) : Nat → Int
  | 0 => s
  | k + 1 => addBonuses (satAdd s 250) k

/-- Full characterisation of the explosion phase: every alien is related to
its image by `expRel`, and the score receives one saturating 250 bonus per
alien whose `explosion_frame` is exactly 4 on entry. -/
lemma updateExplosionsList_spec :
    ∀ (aliens : List Alien) (s : Int),
      List.Forall₂ expRel aliens (updateExplosionsList aliens s).1 ∧
        (updateExplosionsList aliens s).2 =
          addBonuses s (aliens.countP fun a => a.explosion_frame == 4)
  | [], s => ⟨List.Forall₂.nil, rfl⟩
  | a :: rest, s => by
    unfold updateExplosionsList
    by_cases hf : 0 < a.explosion_frame ∧ a.explosion_frame < 5
    · rw [if_pos hf]
      by_cases h5 : a.explosion_frame + 1 = 5
      · have h4 : a.explosion_frame = 4 := by omega
        rw [if_pos (by simpa using h5)]
        have ih := updateExplosionsList_spec rest (satAdd s 250)
        refine ⟨List.Forall₂.cons
          (Or.inl ⟨by omega, by omega, rfl, by simp [h4], rfl, rfl, rfl⟩) ih.1, ?_⟩
        rw [ih.2, List.countP_cons]
        simp [h4, addBonuses]
      · rw [if_neg (by simpa using h5)]
        have ih := updateExplosionsList_spec rest s
        have h4 : ¬ a.explosion_frame = 4 := by omega
        refine ⟨List.Forall₂.cons
          (Or.inl ⟨by omega, by omega, rfl, by simp [h4], rfl, rfl, rfl⟩) ih.1, ?_⟩
        rw [ih.2, List.countP_cons]
        simp [h4]
    · rw [if_neg hf]
      have ih := updateExplosionsList_spec rest s
      refine ⟨List.Forall₂.cons (Or.inr ⟨by omega, rfl⟩) ih.1, ?_⟩
      rw [ih.2, List.countP_cons]
      have h4 : ¬ a.explosion_frame = 4 := by omega
      simp [h4]

/-! ## Movement phase lemmas -/

/-- Moving toward the player changes only the x-coordinate. -/
lemma moveTowardPlayer_moveRel (px : Nat) (a : Alien) :
    moveRel a (moveTowardPlayer px a) := by
  unfold moveTowardPlayer Alien.move_right Alien.move_left
  split_ifs <;> exact ⟨rfl, rfl⟩

/-- `List.set` produces a `Forall₂` when the relation is reflexive and holds
at the updated index. -/
lemma forall₂_set {α : Type} (R : α → α → Prop) (hrefl : ∀ a, R a a) :
    ∀ (l : List α) (j : Nat) (v : α),
      (∀ h : j < l.length, R (l.get ⟨j, h⟩) v) → List.Forall₂ R l (l.set j v)
  | [], _, _, _ => List.Forall₂.nil
  | a :: rest, 0, v, hv => List.Forall₂.cons (hv (Nat.succ_pos _))
      (List.forall₂_same.2 fun x _ => hrefl x)
  | a :: rest, j + 1, v, hv => List.Forall₂.cons (hrefl a)
      (forall₂_set R hrefl rest j v fun h => hv (Nat.succ_lt_succ h))

/-- Membership in the movable-alien list gives the source index and the
liveness/intactness facts. -/
lemma mem_movableAliens {aliens : List Alien} {q : Nat × Alien}
    (hq : q ∈ movableAliens aliens) :
    aliens.get? q.1 = some q.2 ∧ q.2.alive = true ∧ q.2.explosion_frame = 0 := by
  have h := List.mem_filter.1 hq
  have hmem : aliens.get? q.1 = some q.2 := by
    rw [List.get?_eq_getElem? aliens q.1]
    exact List.mem_enum_iff_getElem?.1 h.1
  have hcond := h.2
  simp only [Bool.and_eq_true, beq_iff_eq] at hcond
  exact ⟨hmem, hcond.1, hcond.2⟩

/-- The horizontal movement phase relates every alien to its image by
`moveRel`. -/
lemma updateAliensHorizontal_moveRel (px r : Nat) (aliens : List Alien) :
    List.Forall₂ moveRel aliens (updateAliensHorizontal px r aliens) := by
  unfold updateAliensHorizontal
  by_cases hemp : (movableAliens aliens).isEmpty
  · rw [if_pos hemp]
    exact List.forall₂_same.2 fun x _ => moveRel_refl x
  · rw [if_neg hemp]
    set q := (movableAliens aliens).getD
      (r % (movableAliens aliens).length) (0, default) with hqdef
    have hne : movableAliens aliens ≠ [] := fun hnil => hemp (by simp [hnil])
    have hlen : 0 < (movableAliens aliens).length := List.length_pos.2 hne
    have hmem : q ∈ movableAliens aliens := by
      rw [hqdef, List.getD_eq_getElem _ _ (Nat.mod_lt r hlen)]
      exact List.getElem_mem _
    have hsrc := mem_movableAliens hmem
    refine forall₂_set moveRel moveRel_refl aliens q.1 _ fun h => ?_
    have : aliens.get ⟨q.1, h⟩ = q.2 := by
      have := hsrc.1
      rw [List.get?_eq_get h] at this
      exact Option.some_injective _ this
    rw [this]
    exact moveTowardPlayer_moveRel px q.2

/-- The full movement phase relates every alien to its image by `moveRel`. -/
lemma update_alien_movement_moveRel (g : Game) (r : Nat) :
    List.Forall₂ moveRel g.aliens ((g.update_alien_movement r).aliens) := by
  unfold Game.update_alien_movement
  dsimp only
  refine forall₂_comp moveRel moveRel moveRel
    (fun _ _ _ h₁ h₂ => moveRel_trans h₁ h₂)
    (updateAliensHorizontal_moveRel g.player.x r g.aliens) ?_
  split_ifs
  · refine List.forall₂_map_right_iff.2 (List.forall₂_same.2 fun a _ => ?_)
    split_ifs <;> exact ⟨rfl, rfl⟩
  · exact List.forall₂_same.2 fun x _ => moveRel_refl x

/-! ## The command phase and the master step lemma -/

lemma applyEvent_aliens (g : Game) (ev : GameEvent) :
    (g.applyEvent ev).aliens = g.aliens := by
  cases ev <;> rfl

lemma applyEvent_state (g : Game) (ev : GameEvent) :
    (g.applyEvent ev).game_state = g.game_state ∨
      (g.applyEvent ev).game_state = GameState.Quit := by
  cases ev
  · exact Or.inl rfl
  · exact Or.inl rfl
  · exact Or.inl rfl
  · exact Or.inr rfl
  · exact Or.inl rfl

/-- Master step lemma: in the `Playing` state, the post-step alien collection
is the `keepAlien` purge of a list that is pointwise `stepRel`-related to the
pre-step collection. -/
lemma update_playing_aliens (g : Game) (ev : GameEvent) (r : Nat)
    (h : g.game_state = GameState.Playing) :
    ∃ l', List.Forall₂ stepRel g.aliens l' ∧
      (g.update ev r).aliens = l'.filter keepAlien := by
  rw [update_playing g ev r h, check_game_over_aliens]
  refine ⟨_, ?_, rfl⟩
  set g2 := ({ g with frame_counter := g.frame_counter + 1 } : Game).applyEvent ev
    with hg2
  have hbase : g2.update_blasts.aliens = g.aliens := by
    rw [update_blasts_aliens, hg2, applyEvent_aliens]
  have hcoll : List.Forall₂ collRel g.aliens
      (g2.update_blasts.handle_collisions.aliens) := by
    rw [← hbase]
    exact processBlasts_collRel _ _
  have hexp : List.Forall₂ expRel (g2.update_blasts.handle_collisions.aliens)
      (g2.update_blasts.handle_collisions.update_explosions.aliens) :=
    (updateExplosionsList_spec _ _).1
  have hmove := update_alien_movement_moveRel
    (g2.update_blasts.handle_collisions.update_explosions) r
  exact forall₂_comp (fun a c => ∃ b, collRel a b ∧ expRel b c) moveRel stepRel
    (fun a c a' hac hca' => by
      rcases hac with ⟨b, hab, hbc⟩
      exact ⟨b, c, hab, hbc, hca'⟩)
    (forall₂_comp collRel expRel (fun a c => ∃ b, collRel a b ∧ expRel b c)
      (fun a b c hab hbc => ⟨b, hab, hbc⟩) hcoll hexp)
    hmove

/-! ## Consequences of `stepRel` -/

/-- The possible one-step evolutions of an `explosion_frame` between two
observable engine states: an intact alien stays intact or jumps to 2 (the
collision phase sets 1 and the explosion phase of the same step increments
it), an animating frame in 1..4 rises by exactly one, and frames at or above
5 are frozen. -/
def frameStepR (f f' : Nat) : Prop :=
  (f = 0 ∧ (f' = 0 ∨ f' = 2)) ∨ (1 ≤ f ∧ f ≤ 4 ∧ f' = f + 1) ∨ (5 ≤ f ∧ f' = f)

/-- Field-level consequences of `collRel`. -/
lemma collRel_fields {a b : Alien} (h : collRel a b) :
    b.alive = a.alive ∧
      (b.explosion_frame = a.explosion_frame ∨
        (a.alive = true ∧ a.explosion_frame = 0 ∧ b.explosion_frame = 1)) := by
  rcases h with rfl | ⟨ha, hf, hbf, hba, -, -, -⟩
  · exact ⟨rfl, Or.inl rfl⟩
  · exact ⟨hba, Or.inr ⟨ha, hf, hbf⟩⟩

/-- Field-level consequences of `expRel`. -/
lemma expRel_fields {b c : Alien} (h : expRel b c) :
    (1 ≤ b.explosion_frame ∧ b.explosion_frame ≤ 4 ∧
        c.explosion_frame = b.explosion_frame + 1 ∧
        c.alive = (if b.explosion_frame = 4 then false else b.alive)) ∨
      ((b.explosion_frame = 0 ∨ 5 ≤ b.explosion_frame) ∧
        c.explosion_frame = b.explosion_frame ∧ c.alive = b.alive) := by
  rcases h with ⟨e1, e4, ef, ea, -, -, -⟩ | ⟨e05, rfl⟩
  · exact Or.inl ⟨e1, e4, ef, ea⟩
  · exact Or.inr ⟨e05, rfl, rfl⟩

lemma stepRel_frame {a a' : Alien} (h : stepRel a a') :
    frameStepR a.explosion_frame a'.explosion_frame := by
  rcases h with ⟨b, c, hab, hbc, hca⟩
  obtain ⟨hba, hbf⟩ := collRel_fields hab
  have hcf : a'.explosion_frame = c.explosion_frame := hca.2
  unfold frameStepR
  rcases expRel_fields hbc with ⟨e1, e4, ef, -⟩ | ⟨e05, ef, -⟩ <;>
    rcases hbf with hbf | ⟨-, hf0, hbf⟩ <;> omega

lemma stepRel_good {a a' : Alien} (h : stepRel a a') (ha : a.alive = true)
    (hf : a.explosion_frame ≤ 4) :
    (a'.alive = true ∧ a'.explosion_frame ≤ 4) ∨
      (a'.alive = false ∧ a'.explosion_frame = 5) := by
  rcases h with ⟨b, c, hab, hbc, hca⟩
  obtain ⟨hba, hbf⟩ := collRel_fields hab
  have hcal : a'.alive = c.alive := hca.1
  have hcf : a'.explosion_frame = c.explosion_frame := hca.2
  rcases expRel_fields hbc with ⟨e1, e4, ef, ea⟩ | ⟨e05, ef, ea⟩
  · by_cases h44 : b.explosion_frame = 4
    · rw [if_pos h44] at ea
      exact Or.inr ⟨hcal.trans ea, by omega⟩
    · rw [if_neg h44] at ea
      exact Or.inl ⟨((hcal.trans ea).trans hba).trans ha, by omega⟩
  · refine Or.inl ⟨((hcal.trans ea).trans hba).trans ha, ?_⟩
    rcases hbf with hbf | ⟨-, -, hbf⟩ <;> omega

lemma stepRel_dead {a a' : Alien} (h : stepRel a a')
    (hd : a.alive = true → a.explosion_frame = 4) : a'.alive = false := by
  rcases h with ⟨b, c, hab, hbc, hca⟩
  obtain ⟨hba, hbf⟩ := collRel_fields hab
  have hcal : a'.alive = c.alive := hca.1
  rcases expRel_fields hbc with ⟨e1, e4, ef, ea⟩ | ⟨e05, ef, ea⟩
  · rcases hbf with hbf | ⟨hav, hf0, hbf⟩
    · cases haa : a.alive with
      | true =>
        have h4 := hd haa
        rw [if_pos (by omega)] at ea
        exact hcal.trans ea
      | false =>
        by_cases h44 : b.explosion_frame = 4
        · rw [if_pos h44] at ea
          exact hcal.trans ea
        · rw [if_neg h44] at ea
          exact ((hcal.trans ea).trans hba).trans haa
    · have := hd hav
      omega
  · rcases hbf with hbf | ⟨hav, hf0, hbf⟩
    · cases haa : a.alive with
      | true => have := hd haa; omega
      | false => exact ((hcal.trans ea).trans hba).trans haa
    · have := hd hav
      omega

/-! ## Termination check lemmas -/

lemma check_game_over_win_of_all_dead (g : Game)
    (h : (g.aliens.filter keepAlien).all (fun a => !a.alive) = true) :
    g.check_game_over_conditions.game_state = GameState.Win := by
  unfold Game.check_game_over_conditions
  dsimp only
  rw [if_pos h]

lemma check_game_over_win_cases (g : Game)
    (h : g.check_game_over_conditions.game_state = GameState.Win) :
    g.game_state = GameState.Win ∨
      (g.aliens.filter keepAlien).all (fun a => !a.alive) = true := by
  unfold Game.check_game_over_conditions at h
  dsimp only at h
  split_ifs at h with h1 h2 h3
  all_goals first
    | exact Or.inr h1
    | exact Or.inl h
    | simp at h

/-- `Game::update` when the engine is not `Playing`: identity. -/
lemma update_not_playing (g : Game) (ev : GameEvent) (r : Nat)
    (h : ¬ g.game_state = GameState.Playing) : g.update ev r = g := by
  unfold Game.update
  rw [if_pos h]

/-- The state of the engine after the command phase and the four entity
phases, just before the termination check. -/
def preCheck (g : Game) (ev : GameEvent) (r : Nat) : Game :=
  (((({ g with frame_counter := g.frame_counter + 1 } : Game).applyEvent
      ev).update_blasts).handle_collisions).update_explosions.update_alien_movement r

lemma update_playing_preCheck (g : Game) (ev : GameEvent) (r : Nat)
    (h : g.game_state = GameState.Playing) :
    g.update ev r = (preCheck g ev r).check_game_over_conditions :=
  update_playing g ev r h

lemma preCheck_state_ne_win (g : Game) (ev : GameEvent) (r : Nat)
    (h : g.game_state = GameState.Playing) :
    (preCheck g ev r).game_state ≠ GameState.Win := by
  unfold preCheck
  simp only [update_alien_movement_game_state, update_explosions_game_state,
    handle_collisions_game_state, update_blasts_game_state]
  rcases applyEvent_state ({ g with frame_counter := g.frame_counter + 1 } : Game)
    ev with h1 | h1 <;> rw [h1]
  · show g.game_state ≠ GameState.Win
    rw [h]
    simp
  · simp

/-- Aliens surviving a `Playing` step pass the purge predicate. -/
lemma update_aliens_keep (g : Game) (ev : GameEvent) (r : Nat)
    (h : g.game_state = GameState.Playing) :
    ∀ a' ∈ (g.update ev r).aliens, a'.alive = true ∨ a'.explosion_frame < 5 := by
  intro a' ha'
  rw [update_playing_preCheck g ev r h, check_game_over_aliens] at ha'
  have hk := List.of_mem_filter ha'
  unfold keepAlien at hk
  simpa using hk

/-- The pre-purge alien list of a step is pointwise `stepRel`-related to the
input list. -/
lemma preCheck_stepRel (g : Game) (ev : GameEvent) (r : Nat) :
    List.Forall₂ stepRel g.aliens (preCheck g ev r).aliens := by
  unfold preCheck
  set g2 := ({ g with frame_counter := g.frame_counter + 1 } : Game).applyEvent ev
    with hg2
  have hbase : g2.update_blasts.aliens = g.aliens := by
    rw [update_blasts_aliens, hg2, applyEvent_aliens]
  have hcoll : List.Forall₂ collRel g.aliens
      (g2.update_blasts.handle_collisions.aliens) := by
    rw [← hbase]
    exact processBlasts_collRel _ _
  have hexp : List.Forall₂ expRel (g2.update_blasts.handle_collisions.aliens)
      (g2.update_blasts.handle_collisions.update_explosions.aliens) :=
    (updateExplosionsList_spec _ _).1
  have hmove := update_alien_movement_moveRel
    (g2.update_blasts.handle_collisions.update_explosions) r
  exact forall₂_comp (fun a c => ∃ b, collRel a b ∧ expRel b c) moveRel stepRel
    (fun a c a' hac hca' => by
      rcases hac with ⟨b, hab, hbc⟩
      exact ⟨b, c, hab, hbc, hca'⟩)
    (forall₂_comp collRel expRel (fun a c => ∃ b, collRel a b ∧ expRel b c)
      (fun a b c hab hbc => ⟨b, hab, hbc⟩) hcoll hexp)
    hmove

/-- Every blast surviving `handle_collisions` is an unchanged input blast
that is still on screen. -/
lemma handle_collisions_blasts_sub (g : Game) :
    ∀ b' ∈ g.handle_collisions.blasts, b' ∈ g.blasts ∧ 0 < b'.y := by
  intro b' hb'
  have hf := List.mem_filter.1 hb'
  have hy : 0 < b'.y := by simpa using hf.2
  rcases forall₂_exists_left (processBlasts_blastRel g.blasts g.aliens) b' hf.1
    with ⟨b, hb, hrel⟩
  rcases hrel with rfl | rfl
  · exact ⟨hb, hy⟩
  · simp at hy

/-! ## Player-position lemmas -/

lemma update_player_cases (g : Game) (ev : GameEvent) (r : Nat) :
    (g.update ev r).player = g.player ∨
      (g.update ev r).player = g.player.move_left ∨
      (g.update ev r).player = g.player.move_right := by
  by_cases hp : g.game_state = GameState.Playing
  · rw [update_playing_preCheck g ev r hp]
    rw [check_game_over_player]
    unfold preCheck
    simp only [update_alien_movement_player, update_explosions_player,
      handle_collisions_player, update_blasts_player]
    cases ev
    · exact Or.inr (Or.inl rfl)
    · exact Or.inr (Or.inr rfl)
    · exact Or.inl rfl
    · exact Or.inl rfl
    · exact Or.inl rfl
  · rw [update_not_playing g ev r hp]
    exact Or.inl rfl

lemma player_x_bound_update (g : Game) (ev : GameEvent) (r : Nat)
    (h : g.player.x ≤ 76) : (g.update ev r).player.x ≤ 76 := by
  rcases update_player_cases g ev r with h1 | h1 | h1 <;> rw [h1]
  · exact h
  · unfold Player.move_left
    split_ifs
    · show g.player.x - 1 ≤ 76
      omega
    · exact h
  · unfold Player.move_right
    split_ifs with hc
    · show g.player.x + 1 ≤ 76
      have hc' : g.player.x < 76 := hc
      omega
    · exact h

lemma run_player_bound (g : Game) (steps : List (GameEvent × Nat))
    (h : g.player.x ≤ 76) : (g.run steps).player.x ≤ 76 := by
  induction steps generalizing g with
  | nil => exact h
  | cons s rest ih => exact ih (g.update s.1 s.2) (player_x_bound_update g s.1 s.2 h)

/-! ## Horizontal enemy movement characterisation -/

lemma updateAliensHorizontal_spec (px r : Nat) (aliens : List Alien)
    (hpx : px ≤ GAME_WIDTH - PLAYER_WIDTH / 2 - 1)
    (hne : movableAliens aliens ≠ []) :
    ∃ q : Nat × Alien, q ∈ movableAliens aliens ∧
      q = (movableAliens aliens).getD (r % (movableAliens aliens).length)
        (0, default) ∧
      q.2.alive = true ∧ q.2.explosion_frame = 0 ∧ aliens.get? q.1 = some q.2 ∧
      updateAliensHorizontal px r aliens =
        aliens.set q.1
          (if q.2.x < px - PLAYER_WIDTH / 2 then { q.2 with x := q.2.x + 1 }
           else if px + PLAYER_WIDTH / 2 - 1 < q.2.x then { q.2 with x := q.2.x - 1 }
           else q.2) := by
  have hlen : 0 < (movableAliens aliens).length := List.length_pos.2 hne
  set q := (movableAliens aliens).getD (r % (movableAliens aliens).length)
    (0, default) with hq
  have hmem : q ∈ movableAliens aliens := by
    rw [hq, List.getD_eq_getElem _ _ (Nat.mod_lt r hlen)]
    exact List.getElem_mem _
  obtain ⟨hget, hal, hfr⟩ := mem_movableAliens hmem
  refine ⟨q, hmem, hq, hal, hfr, hget, ?_⟩
  unfold updateAliensHorizontal
  rw [if_neg (fun hE => hne (List.isEmpty_iff.1 hE))]
  rw [← hq]
  have hmt : moveTowardPlayer px q.2 =
      (if q.2.x < px - PLAYER_WIDTH / 2 then { q.2 with x := q.2.x + 1 }
       else if px + PLAYER_WIDTH / 2 - 1 < q.2.x then { q.2 with x := q.2.x - 1 }
       else q.2) := by
    have e1 : PLAYER_WIDTH / 2 = 3 := rfl
    have e2 : GAME_WIDTH - ALIEN_WIDTH = 78 := rfl
    have e3 : px ≤ 76 := hpx
    unfold moveTowardPlayer Alien.move_right Alien.move_left
    rw [e1, e2]
    split_ifs <;> first | rfl | omega
  dsimp only
  rw [hmt]

/-! ## Run-level lemmas -/

lemma frameStepR_facts {f f' : Nat} (h : frameStepR f f') :
    f ≤ f' ∧ (1 ≤ f → f' ≤ f + 1) ∧ (1 ≤ f → 1 ≤ f') ∧ (f ≤ 5 → f' ≤ 5) := by
  unfold frameStepR at h
  omega

lemma rtg_frameStepR_facts {f f' : Nat}
    (h : Relation.ReflTransGen frameStepR f f') :
    f ≤ f' ∧ (f ≤ 5 → f' ≤ 5) ∧ (1 ≤ f → 1 ≤ f') := by
  induction h with
  | refl => exact ⟨le_refl _, fun hx => hx, fun hx => hx⟩
  | tail _ hbc ih =>
    have hf := frameStepR_facts hbc
    exact ⟨le_trans ih.1 hf.1, fun hx => hf.2.2.2 (ih.2.1 hx),
      fun hx => hf.2.2.1 (ih.2.2 hx)⟩

/-- Over any run, every surviving alien's frame is reachable from some
initial alien's frame through chained `frameStepR` steps. -/
lemma run_frames (g : Game) (steps : List (GameEvent × Nat)) :
    ∀ a' ∈ (g.run steps).aliens, ∃ a ∈ g.aliens,
      Relation.ReflTransGen frameStepR a.explosion_frame a'.explosion_frame := by
  induction steps generalizing g with
  | nil => exact fun a' ha' => ⟨a', ha', Relation.ReflTransGen.refl⟩
  | cons s rest ih =>
    intro a' ha'
    have ha'' : a' ∈ ((g.update s.1 s.2).run rest).aliens := ha'
    rcases ih (g.update s.1 s.2) a' ha'' with ⟨m, hm, hrtg⟩
    by_cases hp : g.game_state = GameState.Playing
    · rcases update_playing_aliens g s.1 s.2 hp with ⟨l', hf, heq⟩
      rw [heq] at hm
      rcases forall₂_exists_left hf m (List.mem_of_mem_filter hm) with ⟨a, ha, hrel⟩
      exact ⟨a, ha, Relation.ReflTransGen.head (stepRel_frame hrel) hrtg⟩
    · rw [update_not_playing g s.1 s.2 hp] at hm
      exact ⟨m, hm, hrtg⟩

/-! ## The reachable-state invariant -/

/-- Invariant of every state reachable from the constructor: all aliens in
the collection are alive with frame at most 4, and the `Win` state implies
the collection is empty. -/
def GoodGame (g : Game) : Prop :=
  (∀ a ∈ g.aliens, a.alive = true ∧ a.explosion_frame ≤ 4) ∧
    (g.game_state = GameState.Win → g.aliens = [])

lemma goodGame_new (ds : Nat → Nat) : GoodGame (Game.new ds) := by
  constructor
  · intro a ha
    rcases (mem_initialize_iff ds a).1 ha with ⟨row, hr, col, hc, rfl⟩
    exact ⟨rfl, by simp [Alien.new]⟩
  · intro h
    simp [Game.new] at h

lemma goodGame_update (g : Game) (ev : GameEvent) (r : Nat)
    (hg : GoodGame g) : GoodGame (g.update ev r) := by
  by_cases hp : g.game_state = GameState.Playing
  · rcases update_playing_aliens g ev r hp with ⟨l', hf, heq⟩
    have hmem : ∀ a' ∈ (g.update ev r).aliens,
        a'.alive = true ∧ a'.explosion_frame ≤ 4 := by
      intro a' ha'
      rw [heq] at ha'
      have hkeep : keepAlien a' = true := List.of_mem_filter ha'
      rcases forall₂_exists_left hf a' (List.mem_of_mem_filter ha') with ⟨a, ha, hrel⟩
      rcases hg.1 a ha with ⟨hal, hfr⟩
      rcases stepRel_good hrel hal hfr with hcase | hcase
      · exact hcase
      · exfalso
        unfold keepAlien at hkeep
        rw [hcase.1, hcase.2] at hkeep
        simp at hkeep
    refine ⟨hmem, ?_⟩
    intro hwin
    rw [update_playing_preCheck g ev r hp] at hwin
    rcases check_game_over_win_cases _ hwin with hcw | hall
    · exact absurd hcw (preCheck_state_ne_win g ev r hp)
    · rw [List.eq_nil_iff_forall_not_mem]
      intro x hx
      have hx2 : x ∈ (preCheck g ev r).aliens.filter keepAlien := by
        rw [← check_game_over_aliens, ← update_playing_preCheck g ev r hp]
        exact hx
      have hdead := List.all_eq_true.1 hall x hx2
      have halive := (hmem x hx).1
      rw [halive] at hdead
      simp at hdead
  · rw [update_not_playing g ev r hp]
    exact hg

lemma goodGame_run (g : Game) (steps : List (GameEvent × Nat))
    (hg : GoodGame g) : GoodGame (g.run steps) := by
  induction steps generalizing g with
  | nil => exact hg
  | cons s rest ih => exact ih (g.update s.1 s.2) (goodGame_update g s.1 s.2 hg)

/-! ## Claim theorems -/

/-- **C1.** For every engine whose lifecycle state is not `Playing` and every
command, `Game.update` returns the engine unchanged — in particular the
lifecycle state, score, frame counter, Defender position, and the Projectile
and Enemy collections are all identical before and after the call. -/
theorem claim_C1_terminal_step_is_noop (g : Game) (ev : GameEvent) (r : Nat)
    (h : g.game_state ≠ GameState.Playing) : g.update ev r = g := by
  unfold Game.update
  rw [if_pos h]

/-- A terminal engine used to witness C1. -/
def gameQuitExample : Game :=
  { player := { x := 40 }, blasts := [{ x := 3, y := 7 }]
    aliens := [{ x := 10, y := 3, alive := true, design := 0, explosion_frame := 0 }]
    frame_counter := 17, game_state := GameState.Quit, score := 42 }

/-- Witness for C1 at a concrete terminal engine. -/
theorem claim_C1_terminal_step_is_noop_witness :
    gameQuitExample.game_state ≠ GameState.Playing ∧
      gameQuitExample.update GameEvent.Fire 0 = gameQuitExample :=
  ⟨by decide, claim_C1_terminal_step_is_noop gameQuitExample GameEvent.Fire 0 (by decide)⟩

/-- A `Playing` engine whose single alien is alive at explosion frame 4: the
explosion completes during the `Quit` step, the alien is purged, and the
termination check then overwrites `Quit` with `Win`. -/
def gameQuitOverwritten : Game :=
  { player := { x := 40 }, blasts := []
    aliens := [{ x := 10, y := 3, alive := true, design := 0, explosion_frame := 4 }]
    frame_counter := 0, game_state := GameState.Playing, score := 100 }

/-- **C2, counterexample.** A step processing the `Quit` command from a
`Playing` engine need not end with lifecycle state `Quit`: here it ends in
`Win`, because `check_game_over_conditions` runs after the command phase and
overwrites the state. -/
theorem claim_C2_counterexample :
    gameQuitOverwritten.game_state = GameState.Playing ∧
      (gameQuitOverwritten.update GameEvent.Quit 0).game_state = GameState.Win ∧
      (gameQuitOverwritten.update GameEvent.Quit 0).game_state ≠ GameState.Quit := by
  refine ⟨rfl, by decide, by decide⟩

/-- **C2, amended.** For every engine in the `Playing` state, a step
processing the `Quit` command sets the lifecycle state to `Quit` immediately
on processing the command (the remaining phases all run on a state whose
lifecycle is already `Quit`), and the step ends with state `Quit` unless the
same step's termination check fires, in which case it ends in `Win` or
`GameOver`. -/
theorem claim_C2_quit_transition (g : Game) (r : Nat)
    (h : g.game_state = GameState.Playing) :
    ∃ gm : Game,
      g.update GameEvent.Quit r = gm.check_game_over_conditions ∧
        gm.game_state = GameState.Quit ∧
        ((g.update GameEvent.Quit r).game_state = GameState.Quit ∨
          (g.update GameEvent.Quit r).game_state = GameState.Win ∨
          (g.update GameEvent.Quit r).game_state = GameState.GameOver) := by
  refine ⟨_, update_playing g GameEvent.Quit r h, rfl, ?_⟩
  rw [update_playing g GameEvent.Quit r h]
  have hc := check_game_over_state_cases
    ((((({ g with frame_counter := g.frame_counter + 1 } : Game).applyEvent
        GameEvent.Quit).update_blasts).handle_collisions).update_explosions.update_alien_movement
          r)
  rcases hc with hc | hc | hc
  · exact Or.inl hc
  · exact Or.inr (Or.inl hc)
  · exact Or.inr (Or.inr hc)

/-- Witness for the amended C2 at the freshly constructed engine: the step
ends in `Quit` there. -/
theorem claim_C2_quit_transition_witness :
    (Game.new fun _ => 0).game_state = GameState.Playing ∧
      ∃ gm : Game,
        (Game.new fun _ => 0).update GameEvent.Quit 0 = gm.check_game_over_conditions ∧
          gm.game_state = GameState.Quit ∧
          (((Game.new fun _ => 0).update GameEvent.Quit 0).game_state = GameState.Quit ∨
            ((Game.new fun _ => 0).update GameEvent.Quit 0).game_state = GameState.Win ∨
            ((Game.new fun _ => 0).update GameEvent.Quit 0).game_state = GameState.GameOver) :=
  ⟨rfl, claim_C2_quit_transition (Game.new fun _ => 0) 0 rfl⟩

/-- **C4.** The Enemy-vs-Projectile overlap test is true exactly when the
alien is alive with `explosion_frame = 0` and the blast's coordinates lie in
the alien's 2×2 bounding box; in particular an exploding or dead alien never
collides with any blast. -/
theorem claim_C4_overlap_test :
    (∀ (a : Alien) (b : Blast),
        a.collides_with_blast b = true ↔
          a.alive = true ∧ a.explosion_frame = 0 ∧
            a.x ≤ b.x ∧ b.x < a.x + 2 ∧ a.y ≤ b.y ∧ b.y < a.y + 2) ∧
      ∀ (a : Alien) (b : Blast),
        a.explosion_frame ≠ 0 ∨ a.alive = false → a.collides_with_blast b = false := by
  constructor
  · intro a b
    simp [Alien.collides_with_blast, ALIEN_WIDTH, ALIEN_HEIGHT, and_assoc]
  · intro a b h
    rcases h with h | h <;>
      simp [Alien.collides_with_blast, h]

/-- Witness for C4: an alien mid-explosion is not hit even by a blast inside
its bounding box. -/
theorem claim_C4_overlap_test_witness :
    (({ x := 10, y := 3, alive := true, design := 0, explosion_frame := 2 } :
        Alien).explosion_frame ≠ 0 ∨
        ({ x := 10, y := 3, alive := true, design := 0, explosion_frame := 2 } :
          Alien).alive = false) ∧
      ({ x := 10, y := 3, alive := true, design := 0, explosion_frame := 2 } :
          Alien).collides_with_blast { x := 10, y := 3 } = false :=
  ⟨Or.inl (by decide),
    claim_C4_overlap_test.2 _ { x := 10, y := 3 } (Or.inl (by decide))⟩

/-- **C8.** From a freshly constructed engine, a `Fire` step pushes exactly
one Projectile, spawned one row above the Defender; after that step's
projectile advance it sits at `(Defender.x, Defender.y_row - 2)`, and the step
deducts the fixed per-action cost of 1, turning the initial score 100 into
99. -/
theorem claim_C8_fresh_fire_step (ds : Nat → Nat) (r : Nat) :
    ((Game.new ds).fire_blast).blasts =
        [{ x := (Game.new ds).player.x, y := (Game.new ds).player.y_pos - 1 }] ∧
      ((Game.new ds).update GameEvent.Fire r).blasts =
        [{ x := (Game.new ds).player.x, y := (Game.new ds).player.y_pos - 2 }] ∧
      (Game.new ds).score = 100 ∧
      ((Game.new ds).update GameEvent.Fire r).score = 99 := by
  have hnohit : ∀ a ∈ (Game.new ds).aliens,
      a.collides_with_blast { x := 40, y := 20 } = false := by
    intro a ha
    rcases (mem_initialize_iff ds a).1 ha with ⟨row, hrow, col, hcol, rfl⟩
    have : ¬ (Alien.new (col * 6 + 10) (row * 3 + 3)
        (ds (row * 10 + col))).collides_with_blast { x := 40, y := 20 } = true := by
      rw [collides_with_blast_iff]
      rintro ⟨-, -, -, -, -, h6⟩
      simp only [Alien.new] at h6
      omega
    revert this
    cases (Alien.new (col * 6 + 10) (row * 3 + 3)
        (ds (row * 10 + col))).collides_with_blast { x := 40, y := 20 } <;> simp
  have h1 : ((({ Game.new ds with
        frame_counter := (Game.new ds).frame_counter + 1 } : Game)).applyEvent
          GameEvent.Fire).update_blasts =
      { Game.new ds with frame_counter := 1, blasts := [{ x := 40, y := 20 }], score := satSub 100 1 } := rfl
  have h2 : ({ Game.new ds with frame_counter := 1, blasts := [{ x := 40, y := 20 }], score := satSub 100 1 } : Game).handle_collisions =
      { Game.new ds with frame_counter := 1, blasts := [{ x := 40, y := 20 }], score := satSub 100 1 } := by
    exact handle_collisions_single_miss _ { x := 40, y := 20 } (by decide) rfl hnohit
  have hframes : ∀ a ∈ ({ Game.new ds with frame_counter := 1, blasts := [({ x := 40, y := 20 } : Blast)], score := satSub 100 1 } : Game).aliens, a.explosion_frame = 0 := by
    intro a ha
    rcases (mem_initialize_iff ds a).1 ha with ⟨row, hrow, col, hcol, rfl⟩
    rfl
  have h3 := update_explosions_intact _ hframes
  refine ⟨rfl, ?_, rfl, ?_⟩ <;>
    rw [update_playing _ _ _ rfl] <;>
    simp only [check_game_over_blasts, update_alien_movement_blasts,
      check_game_over_score, update_alien_movement_score, h1, h2, h3,
      update_explosions_blasts]
  · rfl
  · decide

/-- x-projection of the movement phase: only the horizontal half moves
anything horizontally; the vertical half changes `y` only. -/
lemma update_alien_movement_xs (g : Game) (r : Nat) :
    ((g.update_alien_movement r).aliens.map fun a => a.x) =
      ((updateAliensHorizontal g.player.x r g.aliens).map fun a => a.x) := by
  unfold Game.update_alien_movement
  dsimp only
  split_ifs with hfc
  · rw [List.map_map]
    refine List.map_congr_left fun a _ => ?_
    show (if a.alive && a.explosion_frame == 0 then a.move_down else a).x = a.x
    split_ifs <;> rfl
  · rfl

/-- **C3.** The termination check purges fully exploded Enemies first; if no
remaining Enemy is alive it resolves to `Win` without evaluating the loss
conditions; consequently a `Playing` step on which every still-alive Enemy's
destruction animation completes (frame 4, reaching 5 this step) ends in
`Win`, not `GameOver`, even when some Enemy has descended to the Defender's
row — the depth that would otherwise trigger the invasion loss. -/
theorem claim_C3_win_precedence :
    (∀ g : Game, g.check_game_over_conditions.aliens = g.aliens.filter keepAlien) ∧
      (∀ g : Game, (g.aliens.filter keepAlien).all (fun a => !a.alive) = true →
        g.check_game_over_conditions.game_state = GameState.Win) ∧
      (∀ (g : Game) (ev : GameEvent) (r : Nat),
        g.game_state = GameState.Playing →
        (∀ a ∈ g.aliens, a.alive = true → a.explosion_frame = 4) →
        (∃ a ∈ g.aliens, g.player.y_pos ≤ a.y + ALIEN_HEIGHT - 1) →
        (g.update ev r).game_state = GameState.Win) := by
  refine ⟨check_game_over_aliens, check_game_over_win_of_all_dead, ?_⟩
  intro g ev r hp hall hdepth
  rw [update_playing_preCheck g ev r hp]
  apply check_game_over_win_of_all_dead
  rw [List.all_eq_true]
  intro x hx
  rcases forall₂_exists_left (preCheck_stepRel g ev r) x
    (List.mem_of_mem_filter hx) with ⟨a, ha, hrel⟩
  have hdead := stepRel_dead hrel (hall a ha)
  simp [hdead]

/-- A `Playing` engine whose sole Enemy is alive at frame 4 and has descended
to invasion depth. -/
def gameWinRace : Game :=
  { player := { x := 40 }, blasts := []
    aliens := [{ x := 10, y := 21, alive := true, design := 0, explosion_frame := 4 }]
    frame_counter := 0, game_state := GameState.Playing, score := 100 }

/-- Witness for C3: the race between the last destruction and the invasion
resolves as `Win`. -/
theorem claim_C3_win_precedence_witness :
    gameWinRace.game_state = GameState.Playing ∧
      (∀ a ∈ gameWinRace.aliens, a.alive = true → a.explosion_frame = 4) ∧
      (∃ a ∈ gameWinRace.aliens,
        gameWinRace.player.y_pos ≤ a.y + ALIEN_HEIGHT - 1) ∧
      (gameWinRace.update GameEvent.AdvanceFrame 0).game_state = GameState.Win :=
  ⟨rfl, by decide, by decide,
    claim_C3_win_precedence.2.2 gameWinRace GameEvent.AdvanceFrame 0 rfl
      (by decide) (by decide)⟩

/-- **C5.** Collision resolution: a Projectile overlapping no Enemy leaves
the Enemy collection untouched; a Projectile whose first overlapped Enemy is
at index `i` starts exactly that Enemy's explosion (frame set to 1) and is
reported as a hit (so it is marked and removed in the same phase); blasts
surviving the phase are unchanged input blasts still on screen; and each
Enemy is either untouched by the phase or has its frame set from 0 to 1. -/
theorem claim_C5_per_projectile_hit :
    (∀ (b : Blast) (aliens : List Alien),
        (∀ a ∈ aliens, a.collides_with_blast b = false) →
          markFirstHit b aliens = (aliens, false)) ∧
      (∀ (b : Blast) (aliens : List Alien) (i : Nat) (hi : i < aliens.length),
        (aliens.get ⟨i, hi⟩).collides_with_blast b = true →
        (∀ j (hj : j < i),
          (aliens.get ⟨j, Nat.lt_trans hj hi⟩).collides_with_blast b = false) →
          markFirstHit b aliens =
            (aliens.set i { aliens.get ⟨i, hi⟩ with explosion_frame := 1 }, true)) ∧
      (∀ g : Game, ∀ b' ∈ g.handle_collisions.blasts, b' ∈ g.blasts ∧ 0 < b'.y) ∧
      (∀ g : Game, List.Forall₂ collRel g.aliens g.handle_collisions.aliens) :=
  ⟨markFirstHit_eq_of_no_hit, markFirstHit_eq_of_first_hit,
    handle_collisions_blasts_sub,
    fun g => processBlasts_collRel g.blasts g.aliens⟩

/-- A far-away intact Enemy and an off-target Projectile, for the C5
witness. -/
def alienFarAway : Alien :=
  { x := 50, y := 10, alive := true, design := 0, explosion_frame := 0 }

def blastOffTarget : Blast := { x := 3, y := 3 }

/-- Witness for C5 at a concrete miss: the blast passes through and the
collection is unchanged. -/
theorem claim_C5_per_projectile_hit_witness :
    (∀ a ∈ [alienFarAway], a.collides_with_blast blastOffTarget = false) ∧
      markFirstHit blastOffTarget [alienFarAway] = ([alienFarAway], false) :=
  ⟨by decide, claim_C5_per_projectile_hit.1 blastOffTarget [alienFarAway] (by decide)⟩

/-- **C6.** The explosion phase advances every Enemy with frame 1..4 by
exactly one; the step on which the frame reaches 5 also sets `alive := false`
and adds the fixed 250 bonus, awarded exactly for the Enemies whose frame is
4 on entry (hence never on the hit step, where the frame is 1); and after any
`Playing` step no dead Enemy with frame 5 remains in the collection, so the
bonus can never be paid twice for the same Enemy. -/
theorem claim_C6_explosion_advance_and_bonus :
    (∀ (aliens : List Alien) (s : Int),
        List.Forall₂ expRel aliens (updateExplosionsList aliens s).1 ∧
          (updateExplosionsList aliens s).2 =
            addBonuses s (aliens.countP fun a => a.explosion_frame == 4)) ∧
      ∀ (g : Game) (ev : GameEvent) (r : Nat),
        g.game_state = GameState.Playing →
        ∀ a' ∈ (g.update ev r).aliens, a'.alive = true ∨ a'.explosion_frame < 5 :=
  ⟨updateExplosionsList_spec, update_aliens_keep⟩

/-- A `Playing` engine with one Enemy mid-animation, used to witness C6. -/
def gameMidExplosion : Game :=
  { player := { x := 40 }, blasts := []
    aliens := [{ x := 10, y := 3, alive := true, design := 0, explosion_frame := 3 }]
    frame_counter := 0, game_state := GameState.Playing, score := 0 }

/-- Witness for C6 at a concrete `Playing` engine. -/
theorem claim_C6_explosion_advance_and_bonus_witness :
    gameMidExplosion.game_state = GameState.Playing ∧
      ∀ a' ∈ (gameMidExplosion.update GameEvent.AdvanceFrame 0).aliens,
        a'.alive = true ∨ a'.explosion_frame < 5 :=
  ⟨rfl, claim_C6_explosion_advance_and_bonus.2 gameMidExplosion
    GameEvent.AdvanceFrame 0 rfl⟩

/-- **C7.** Frame monotonicity: over one `Playing` step every Enemy's frame
follows `frameStepR` (unchanged, or 0 jumping to 2 through the transient
value 1, or 1..4 rising by exactly one, or frozen at 5 and above) before the
purge; `frameStepR` itself is monotone, rises by at most one once positive,
never returns to 0, and preserves the bound 5; and over any run every
surviving Enemy's frame is linked to an initial Enemy's frame by a chain of
such steps, hence non-decreasing, never dropping back below 1 once positive,
and never exceeding 5 when it started at 5 or below. -/
theorem claim_C7_frame_monotone :
    (∀ (g : Game) (ev : GameEvent) (r : Nat), g.game_state = GameState.Playing →
        ∃ l', List.Forall₂
            (fun a a' => frameStepR a.explosion_frame a'.explosion_frame)
            g.aliens l' ∧
          (g.update ev r).aliens = l'.filter keepAlien) ∧
      (∀ f f' : Nat, frameStepR f f' →
        f ≤ f' ∧ (1 ≤ f → f' ≤ f + 1) ∧ (1 ≤ f → 1 ≤ f') ∧ (f ≤ 5 → f' ≤ 5)) ∧
      (∀ (g : Game) (steps : List (GameEvent × Nat)),
        ∀ a' ∈ (g.run steps).aliens, ∃ a ∈ g.aliens,
          Relation.ReflTransGen frameStepR a.explosion_frame a'.explosion_frame ∧
            a.explosion_frame ≤ a'.explosion_frame ∧
            (a.explosion_frame ≤ 5 → a'.explosion_frame ≤ 5) ∧
            (1 ≤ a.explosion_frame → 1 ≤ a'.explosion_frame)) := by
  refine ⟨?_, fun f f' h => frameStepR_facts h, ?_⟩
  · intro g ev r h
    rcases update_playing_aliens g ev r h with ⟨l', hf, heq⟩
    exact ⟨l', hf.imp fun a b hr => stepRel_frame hr, heq⟩
  · intro g steps a' ha'
    rcases run_frames g steps a' ha' with ⟨a, ha, hrtg⟩
    have hfacts := rtg_frameStepR_facts hrtg
    exact ⟨a, ha, hrtg, hfacts.1, hfacts.2.1, hfacts.2.2⟩

/-- A `Playing` engine with one Enemy at frame 2, used to witness C7. -/
def gameFrameStep : Game :=
  { player := { x := 40 }, blasts := []
    aliens := [{ x := 10, y := 3, alive := true, design := 0, explosion_frame := 2 }]
    frame_counter := 0, game_state := GameState.Playing, score := 0 }

/-- Witness for C7 at a concrete `Playing` engine. -/
theorem claim_C7_frame_monotone_witness :
    gameFrameStep.game_state = GameState.Playing ∧
      ∃ l', List.Forall₂
          (fun a a' => frameStepR a.explosion_frame a'.explosion_frame)
          gameFrameStep.aliens l' ∧
        (gameFrameStep.update GameEvent.AdvanceFrame 0).aliens =
          l'.filter keepAlien :=
  ⟨rfl, claim_C7_frame_monotone.1 gameFrameStep GameEvent.AdvanceFrame 0 rfl⟩

/-- **C9.** The Defender's column stays within its clamped range on every
reachable state; when no Enemy is movable the horizontal phase moves
nothing; otherwise exactly the randomly selected movable Enemy (index
`r % len` of the movable list, necessarily alive and intact) moves one step
right when strictly left of the Defender's span, one step left when strictly
right of it, and not at all when aligned — all other Enemies' entries are
untouched by `List.set`; and the full movement phase changes no horizontal
position beyond what the horizontal half does. -/
theorem claim_C9_random_horizontal_step :
    (∀ (ds : Nat → Nat) (steps : List (GameEvent × Nat)),
        ((Game.new ds).run steps).player.x ≤ GAME_WIDTH - PLAYER_WIDTH / 2 - 1) ∧
      (∀ (px r : Nat) (aliens : List Alien),
        movableAliens aliens = [] → updateAliensHorizontal px r aliens = aliens) ∧
      (∀ (px r : Nat) (aliens : List Alien),
        px ≤ GAME_WIDTH - PLAYER_WIDTH / 2 - 1 → movableAliens aliens ≠ [] →
          ∃ q : Nat × Alien, q ∈ movableAliens aliens ∧
            q = (movableAliens aliens).getD (r % (movableAliens aliens).length)
              (0, default) ∧
            q.2.alive = true ∧ q.2.explosion_frame = 0 ∧
            aliens.get? q.1 = some q.2 ∧
            updateAliensHorizontal px r aliens =
              aliens.set q.1
                (if q.2.x < px - PLAYER_WIDTH / 2 then { q.2 with x := q.2.x + 1 }
                 else if px + PLAYER_WIDTH / 2 - 1 < q.2.x then
                   { q.2 with x := q.2.x - 1 }
                 else q.2)) ∧
      (∀ (g : Game) (r : Nat),
        ((g.update_alien_movement r).aliens.map fun a => a.x) =
          ((updateAliensHorizontal g.player.x r g.aliens).map fun a => a.x)) := by
  refine ⟨?_, ?_, updateAliensHorizontal_spec, update_alien_movement_xs⟩
  · intro ds steps
    exact run_player_bound _ _ (by norm_num [Game.new, Player.new, GAME_WIDTH])
  · intro px r aliens h
    simp [updateAliensHorizontal, h]

/-- A single intact Enemy left of the Defender, for the C9 witness. -/
def aliensOneLeft : List Alien :=
  [{ x := 10, y := 3, alive := true, design := 0, explosion_frame := 0 }]

/-- Witness for C9: with one intact Enemy strictly left of the Defender, the
selected Enemy is that one and it moves one step right. -/
theorem claim_C9_random_horizontal_step_witness :
    ((40 : Nat) ≤ GAME_WIDTH - PLAYER_WIDTH / 2 - 1 ∧
        movableAliens aliensOneLeft ≠ []) ∧
      ∃ q : Nat × Alien, q ∈ movableAliens aliensOneLeft ∧
        q = (movableAliens aliensOneLeft).getD
          (0 % (movableAliens aliensOneLeft).length) (0, default) ∧
        q.2.alive = true ∧ q.2.explosion_frame = 0 ∧
        aliensOneLeft.get? q.1 = some q.2 ∧
        updateAliensHorizontal 40 0 aliensOneLeft =
          aliensOneLeft.set q.1
            (if q.2.x < 40 - PLAYER_WIDTH / 2 then { q.2 with x := q.2.x + 1 }
             else if 40 + PLAYER_WIDTH / 2 - 1 < q.2.x then
               { q.2 with x := q.2.x - 1 }
             else q.2) :=
  ⟨⟨by decide, by decide⟩,
    claim_C9_random_horizontal_step.2.2.1 40 0 aliensOneLeft (by decide) (by decide)⟩

/-- **C10.** In every state reachable from the constructor by `step` calls,
every Enemy in the collection is alive with `explosion_frame ≤ 4` (a dead or
stage-5 Enemy is purged within the step that produced it and is never
observable between steps), and the `Win` state is only ever reached with an
empty Enemy collection. -/
theorem claim_C10_between_steps_invariant (ds : Nat → Nat)
    (steps : List (GameEvent × Nat)) :
    (∀ a ∈ ((Game.new ds).run steps).aliens,
        a.alive = true ∧ a.explosion_frame ≤ 4) ∧
      (((Game.new ds).run steps).game_state = GameState.Win →
        ((Game.new ds).run steps).aliens = []) :=
  goodGame_run (Game.new ds) steps (goodGame_new ds)

end Asciiliens
